import Mathlib

/-!
Verification of the trust-and-privacy core of a Matrix-based social client
(robrix). The Rust sources are shallowly embedded: Rust enums become Lean
inductive types, structs become structures, `BTreeMap`/`BTreeSet` state
becomes association lists / duplicate-free lists, machine integers (`u32`,
`u64`) become `Nat` (all counters only ever increment by one or saturate at
zero, so no wrap-around is reachable), and fallible decoding returns
`Option`. Module paths mirror the Rust module tree: `privacy` embeds
`src/social/privacy/mod.rs`, `privacy.sharing_guard` embeds
`src/social/privacy/sharing_guard.rs`, `events.rsvp` embeds
`src/social/events/rsvp.rs`, `reactions` embeds `src/social/reactions.rs`,
`newsfeed` embeds `src/social/newsfeed/*.rs`, and `social_events.rsvp`
embeds `robrix-social-events/src/rsvp.rs`.
-/

/-! ## Association-list helpers

`BTreeMap` state is embedded as an association list with pairwise-distinct
keys; `alook` is `get`, `aset` is `insert` (replace or append), `aerase` is
`remove`. Only the key/value mapping (not the key order) is observable in
the claims, so list order standing in for B-tree key order is harmless. -/

def alook {α β : Type} [DecidableEq α] : List (α × β) → α → Option β
  | [], _ => none
  | (k, v) :: rest, k' => if k = k' then some v else alook rest k'

def aset {α β : Type} [DecidableEq α] : List (α × β) → α → β → List (α × β)
  | [], k, v => [(k, v)]
  | (k', v') :: rest, k, v =>
      if k' = k then (k, v) :: rest else (k', v') :: aset rest k v

def aerase {α β : Type} [DecidableEq α] : List (α × β) → α → List (α × β)
  | [], _ => []
  | (k', v') :: rest, k => if k' = k then rest else (k', v') :: aerase rest k

theorem alook_isSome_iff_mem {α β : Type} [DecidableEq α] (l : List (α × β)) (k : α) :
    (alook l k).isSome ↔ k ∈ l.map Prod.fst := by
  induction l with
  | nil => simp [alook]
  | cons hd tl ih =>
      obtain ⟨k₀, v₀⟩ := hd
      by_cases h0 : k₀ = k
      · subst h0; simp [alook]
      · simp [alook, h0, ih, Ne.symm h0]

theorem alook_eq_none_of_not_mem {α β : Type} [DecidableEq α] {l : List (α × β)} {k : α}
    (h : k ∉ l.map Prod.fst) : alook l k = none := by
  cases halt : alook l k with
  | none => rfl
  | some v =>
      exact absurd ((alook_isSome_iff_mem l k).mp (by simp [halt])) h

theorem mem_of_alook_eq_some {α β : Type} [DecidableEq α] {l : List (α × β)} {k : α} {v : β}
    (h : alook l k = some v) : (k, v) ∈ l := by
  induction l with
  | nil => simp [alook] at h
  | cons hd tl ih =>
      obtain ⟨k₀, v₀⟩ := hd
      by_cases h0 : k₀ = k
      · subst h0
        simp [alook] at h
        subst h; simp
      · simp only [alook, if_neg h0] at h
        simp [ih h]

theorem alook_isSome_of_mem {α β : Type} [DecidableEq α] {l : List (α × β)} {k : α} {v : β}
    (h : (k, v) ∈ l) : (alook l k).isSome := by
  rw [alook_isSome_iff_mem]
  exact List.mem_map.mpr ⟨(k, v), h, rfl⟩

theorem alook_aset {α β : Type} [DecidableEq α] (l : List (α × β)) (k k' : α) (v : β) :
    alook (aset l k v) k' = if k = k' then some v else alook l k' := by
  induction l with
  | nil => simp [aset, alook]
  | cons hd tl ih =>
      obtain ⟨k₀, v₀⟩ := hd
      by_cases h0 : k₀ = k
      · subst h0
        by_cases h1 : k₀ = k'
        · subst h1; simp [aset, alook]
        · simp [aset, alook, h1]
      · by_cases h1 : k₀ = k'
        · subst h1
          simp [aset, alook, h0, Ne.symm h0]
        · simp [aset, alook, h0, h1, ih]

theorem alook_aerase {α β : Type} [DecidableEq α] (l : List (α × β)) (k k' : α)
    (hnd : (l.map Prod.fst).Nodup) :
    alook (aerase l k) k' = if k = k' then none else alook l k' := by
  induction l with
  | nil => simp [aerase, alook]
  | cons hd tl ih =>
      obtain ⟨k₀, v₀⟩ := hd
      simp only [List.map_cons, List.nodup_cons] at hnd
      by_cases h0 : k₀ = k
      · subst h0
        by_cases h1 : k₀ = k'
        · subst h1
          simp [aerase, alook, alook_eq_none_of_not_mem hnd.1]
        · simp [aerase, alook, h1]
      · by_cases h1 : k₀ = k'
        · subst h1
          simp [aerase, alook, h0, Ne.symm h0, ih hnd.2]
        · simp [aerase, alook, h0, h1, ih hnd.2]

theorem keys_aset_nodup {α β : Type} [DecidableEq α] (l : List (α × β)) (k : α) (v : β)
    (hnd : (l.map Prod.fst).Nodup) : ((aset l k v).map Prod.fst).Nodup := by
  induction l with
  | nil => simp [aset]
  | cons hd tl ih =>
      obtain ⟨k₀, v₀⟩ := hd
      simp only [List.map_cons, List.nodup_cons] at hnd
      by_cases h0 : k₀ = k
      · subst h0
        have hset : aset ((k₀, v₀) :: tl) k₀ v = (k₀, v) :: tl := by simp [aset]
        rw [hset]
        simp only [List.map_cons, List.nodup_cons]
        exact hnd
      · simp only [aset, if_neg h0, List.map_cons, List.nodup_cons]
        refine ⟨?_, ih hnd.2⟩
        intro hmem
        rcases List.mem_map.mp hmem with ⟨⟨ka, va⟩, hka, hfst⟩
        simp only at hfst
        subst hfst
        have hsome : (alook (aset tl k v) ka).isSome := alook_isSome_of_mem hka
        rw [alook_aset] at hsome
        by_cases hkk : k = ka
        · exact h0 hkk.symm
        · rw [if_neg hkk, alook_isSome_iff_mem] at hsome
          exact hnd.1 hsome

theorem keys_aerase_nodup {α β : Type} [DecidableEq α] (l : List (α × β)) (k : α)
    (hnd : (l.map Prod.fst).Nodup) : ((aerase l k).map Prod.fst).Nodup := by
  induction l with
  | nil => simp [aerase]
  | cons hd tl ih =>
      obtain ⟨k₀, v₀⟩ := hd
      simp only [List.map_cons, List.nodup_cons] at hnd
      by_cases h0 : k₀ = k
      · subst h0
        have hers : aerase ((k₀, v₀) :: tl) k₀ = tl := by simp [aerase]
        rw [hers]
        exact hnd.2
      · simp only [aerase, if_neg h0, List.map_cons, List.nodup_cons]
        refine ⟨?_, ih hnd.2⟩
        intro hmem
        rcases List.mem_map.mp hmem with ⟨⟨ka, va⟩, hka, hfst⟩
        simp only at hfst
        subst hfst
        have hsome : (alook (aerase tl k) ka).isSome := alook_isSome_of_mem hka
        rw [alook_aerase tl k ka hnd.2] at hsome
        by_cases hkk : k = ka
        · simp [hkk] at hsome
        · rw [if_neg hkk, alook_isSome_iff_mem] at hsome
          exact hnd.1 hsome

theorem length_aset_of_alook_none {α β : Type} [DecidableEq α] {l : List (α × β)} {k : α}
    (v : β) (h : alook l k = none) : (aset l k v).length = l.length + 1 := by
  induction l with
  | nil => simp [aset]
  | cons hd tl ih =>
      obtain ⟨k₀, v₀⟩ := hd
      by_cases h0 : k₀ = k
      · subst h0; simp [alook] at h
      · simp only [alook, if_neg h0] at h
        simp [aset, h0, ih h]

theorem length_aerase_of_alook_some {α β : Type} [DecidableEq α] {l : List (α × β)} {k : α}
    {v : β} (h : alook l k = some v) : (aerase l k).length = l.length - 1 := by
  induction l with
  | nil => simp [alook] at h
  | cons hd tl ih =>
      obtain ⟨k₀, v₀⟩ := hd
      by_cases h0 : k₀ = k
      · subst h0; simp [aerase]
      · simp only [alook, if_neg h0] at h
        have hpos : 1 ≤ tl.length := by
          have hmem := mem_of_alook_eq_some h
          cases tl with
          | nil => simp at hmem
          | cons a b => simp
        simp only [aerase, if_neg h0, List.length_cons, ih h]
        omega

/-! ## Privacy lattice (`src/social/privacy/mod.rs` and
`src/social/privacy/sharing_guard.rs`)

Both privacy modules declare a structurally identical four-level enum
(`Public`, `Friends`, `CloseFriends`, `Private`); `mod.rs` compares via an
explicit `ordinal` method, `sharing_guard.rs` via the derived order on the
same discriminants 0..3 — the identical lattice is embedded once. -/

inductive PrivacyLevel : Type
  | Public
  | Friends
  | CloseFriends
  | Private
deriving DecidableEq, Fintype, Repr

def PrivacyLevel.ordinal : PrivacyLevel → Nat
  | .Public => 0
  | .Friends => 1
  | .CloseFriends => 2
  | .Private => 3

def PrivacyLevel.can_share_to (source destination : PrivacyLevel) : Bool :=
  decide (destination.ordinal ≥ source.ordinal)

namespace privacy

/-- Result of share validation, from `src/social/privacy/mod.rs` lines
118-145 (room and user identifiers embedded as strings). -/
inductive ShareValidation : Type
  | Allowed
  | BlockedPrivacyLeak (source_privacy target_privacy : PrivacyLevel)
  | MentionNotInTarget (user_id : String)
  | AttachmentPrivacyMismatch (attachment_room : String) (attachment_privacy : PrivacyLevel)
deriving DecidableEq, Repr

/-- `SharingGuard::validate_share` from `src/social/privacy/mod.rs` lines
205-237: rule 1 blocks a source level that cannot flow to the target, rule 2
scans attachments in order and returns the first whose privacy cannot flow
to the target (the Rust for-loop returning on the first offender is embedded
as `List.find?`), mentions are accepted unchecked (the source marks rule 3
as a placeholder), otherwise the share is allowed. -/
def validate_share (_source_room : String) (source_privacy : PrivacyLevel)
    (_target_room : String) (target_privacy : PrivacyLevel)
    (_mentions : List String) (attachments : List (String × PrivacyLevel)) :
    ShareValidation :=
  if ¬ source_privacy.can_share_to target_privacy then
    .BlockedPrivacyLeak source_privacy target_privacy
  else
    match attachments.find? (fun a => ! a.2.can_share_to target_privacy) with
    | some a => .AttachmentPrivacyMismatch a.1 a.2
    | none => .Allowed

end privacy

namespace sharing_guard

/-- Result of share validation, from `src/social/privacy/sharing_guard.rs`
lines 30-44. -/
inductive ShareValidation : Type
  | Allowed
  | BlockedPrivacyLeak (source target : PrivacyLevel) (message : String)
  | RequiresConfirmation (warning : String)
  | MissingMentions (missing_users : List String)
deriving DecidableEq, Repr

/-- `privacy_level_name` from `src/social/privacy/sharing_guard.rs` lines
117-124. -/
def privacy_level_name : PrivacyLevel → String
  | .Public => "public"
  | .Friends => "friends-only"
  | .CloseFriends => "close friends"
  | .Private => "private"

/-- `SharingGuard::validate_share` from
`src/social/privacy/sharing_guard.rs` lines 52-98: the Friends-to-Public
special case is checked before the general lattice rule, then the lattice
rule, then mentioned users missing from the target member list. -/
def validate_share (_source_room : String) (source_privacy : PrivacyLevel)
    (_target_room : String) (target_privacy : PrivacyLevel)
    (mentioned_users : List String) (target_members : List String) :
    ShareValidation :=
  if source_privacy = .Friends ∧ target_privacy = .Public then
    .RequiresConfirmation
      "You are about to share friends-only content publicly. The original author may not have intended this content to be shared publicly."
  else if ¬ source_privacy.can_share_to target_privacy then
    .BlockedPrivacyLeak source_privacy target_privacy
      ("Cannot share " ++ privacy_level_name source_privacy ++ " content to "
        ++ privacy_level_name target_privacy ++ " audience")
  else
    let missing := mentioned_users.filter (fun u => ¬ target_members.contains u)
    if ¬ missing.isEmpty then
      .MissingMentions missing
    else
      .Allowed

/-- `SharingGuard::validate_quote` from
`src/social/privacy/sharing_guard.rs` lines 101-114. -/
def validate_quote (original_room_privacy reply_room_privacy : PrivacyLevel) :
    ShareValidation :=
  if original_room_privacy.ordinal > reply_room_privacy.ordinal then
    .RequiresConfirmation
      "Your reply quotes content from a more private room. This may expose private information."
  else
    .Allowed

end sharing_guard

/-! ## RSVP authenticity validation (`src/social/events/rsvp.rs`) -/

namespace events

namespace rsvp

/-- Modelled from the spec: parsing a claimed-owner string as a user
identity is delegated to the external Matrix client library
(`OwnedUserId::try_from`), which is outside this repository. A Matrix user
identity is the `@` sigil, a localpart, a `:` separator and a server name;
the model accepts exactly the strings with a leading `@` and a later `:`.
The spec relies only on the parse outcome (for example `"not_a_user_id"`
failing), never on a particular parsed value, and parsing does not rewrite
the string, so a successful parse returns the input itself. -/
def parseUserId (s : String) : Option String :=
  match s.data with
  | [] => none
  | c :: rest => if c = '@' ∧ ':' ∈ rest then some s else none

/-- RSVP validation result, from `src/social/events/rsvp.rs` lines 13-26
(user identifiers embedded as strings). -/
inductive RsvpValidation : Type
  | Valid
  | SenderMismatch (claimed actual : String)
  | InvalidContent (reason : String)
deriving DecidableEq, Repr

/-- `validate_rsvp_event` from `src/social/events/rsvp.rs` lines 40-62. The
sync state event is embedded by the two projections the function reads: its
event-type string and its state key. -/
def validate_rsvp_event (event_type state_key sender : String) : RsvpValidation :=
  if event_type = "org.social.rsvp" then
    match parseUserId state_key with
    | some claimed_user =>
        if claimed_user ≠ sender then
          .SenderMismatch claimed_user sender
        else
          .Valid
    | none => .InvalidContent ("Invalid state_key: " ++ state_key)
  else
    .Valid

end rsvp

end events

/-! ## Wire-level RSVP record (`robrix-social-events/src/rsvp.rs`) -/

namespace social_events

namespace rsvp

/-- `RsvpStatus` from `robrix-social-events/src/rsvp.rs` lines 29-35. -/
inductive RsvpStatus : Type
  | Going
  | Interested
  | NotGoing
deriving DecidableEq, Repr

/-- `SocialRsvpEventContent` from `robrix-social-events/src/rsvp.rs` lines
12-23 (`guests: u32` embedded as a `Nat` that the decoder keeps below
`2^32`). -/
structure SocialRsvpEventContent : Type where
  status : RsvpStatus
  guests : Nat
  note : Option String
deriving DecidableEq, Repr

/-- Decoding of the `status` field: serde `rename_all = "snake_case"` maps
the three variants to exactly the strings `"going"`, `"interested"` and
`"not_going"`; any other string is rejected. -/
def decodeRsvpStatus (s : String) : Option RsvpStatus :=
  if s = "going" then some .Going
  else if s = "interested" then some .Interested
  else if s = "not_going" then some .NotGoing
  else none

/-- Deserialization of `SocialRsvpEventContent`, translated from its serde
derive attributes: `status` is required and must be one of the three
renamed strings; `guests` carries `#[serde(default = "default_guests")]`,
so an absent field becomes `default_guests() = 1` while a present field
must be a JSON integer in the `u32` range `0..2^32` (serde imposes no lower
bound beyond non-negativity); `note` is an optional string. The wire record
is embedded by its three fields, with `Option` marking an absent field. -/
def decodeSocialRsvpEventContent (status : String) (guests : Option Int)
    (note : Option String) : Option SocialRsvpEventContent :=
  match decodeRsvpStatus status with
  | none => none
  | some st =>
      match guests with
      | none => some ⟨st, 1, note⟩
      | some g =>
          if 0 ≤ g ∧ g < 4294967296 then some ⟨st, g.toNat, note⟩ else none

end rsvp

end social_events

/-! ## Newsfeed aggregation and filtering (`src/social/newsfeed/*.rs`) -/

namespace newsfeed

/-- `PostContent` from `src/social/post.rs` lines 127-170 (URIs, URLs and
link previews embedded as strings; mention sets as string lists). -/
inductive PostContent : Type
  | Text (body : String) (formatted_body : Option String) (mentions : List String)
  | Image (mxc_uri : String) (caption : Option String) (thumbnail_uri : Option String)
      (width height : Nat)
  | Video (mxc_uri : String) (caption : Option String) (thumbnail_uri : Option String)
      (duration_ms : Option Nat)
  | Link (url : String) (comment : Option String) (preview : Option String)
deriving DecidableEq, Repr

/-- `FeedSortOrder` from `src/social/newsfeed/feed_aggregator.rs` lines
49-58. -/
inductive FeedSortOrder : Type
  | Chronological
  | Engagement
  | GroupedByAuthor
deriving DecidableEq, Repr

/-- `FeedItem` from `src/social/newsfeed/feed_aggregator.rs` lines 63-79
(identifiers embedded as strings, the reaction-count `BTreeMap` as an
association list, timestamps as `Nat` milliseconds). -/
structure FeedItem : Type where
  room_id : String
  event_id : String
  sender : String
  origin_server_ts : Nat
  content : PostContent
  reactions : List (String × Nat)
  comment_count : Nat
deriving DecidableEq, Repr

/-- `FeedItem::engagement` from `src/social/newsfeed/feed_aggregator.rs`
lines 85-88: sum of all reaction counts plus the comment count. -/
def FeedItem.engagement (item : FeedItem) : Nat :=
  (item.reactions.map Prod.snd).sum + item.comment_count

/-- `FeedAggregator::sort_items` from
`src/social/newsfeed/feed_aggregator.rs` lines 208-228. Rust `sort_by` is a
stable sort by its comparator; each comparator is embedded as the boolean
relation that holds when the comparator returns `Less` or `Equal`. -/
def sort_items (order : FeedSortOrder) (items : List FeedItem) : List FeedItem :=
  match order with
  | .Chronological =>
      items.mergeSort (fun a b => decide (b.origin_server_ts ≤ a.origin_server_ts))
  | .Engagement =>
      items.mergeSort (fun a b => decide (b.engagement ≤ a.engagement))
  | .GroupedByAuthor =>
      items.mergeSort (fun a b =>
        decide (a.sender < b.sender ∨ (a.sender = b.sender ∧ b.origin_server_ts ≤ a.origin_server_ts)))

/-- `FeedAggregator::get_aggregated_feed` from
`src/social/newsfeed/feed_aggregator.rs` lines 169-187, with the per-room
fetches (delegated to the external room-data collaborator) supplied as the
already-fetched item lists, one per tracked room: the per-room lists are
concatenated in room order, sorted by the active order, and truncated to
`limit`. -/
def get_aggregated_feed (fetched : List (List FeedItem)) (sort_order : FeedSortOrder)
    (limit : Nat) : List FeedItem :=
  let all_items := fetched.foldl (fun acc items => acc ++ items) []
  (sort_items sort_order all_items).take limit

/-- `ContentFilter` from `src/social/newsfeed/feed_filter.rs` lines 15-25. -/
inductive ContentFilter : Type
  | All
  | TextOnly
  | MediaOnly
  | LinksOnly
deriving DecidableEq, Repr

/-- `ContentFilter::matches` from `src/social/newsfeed/feed_filter.rs`
lines 29-43. -/
def ContentFilter.matches (f : ContentFilter) (item : FeedItem) : Bool :=
  match f with
  | .All => true
  | .TextOnly =>
      match item.content with
      | .Text _ _ _ => true
      | _ => false
  | .MediaOnly =>
      match item.content with
      | .Image _ _ _ _ _ => true
      | .Video _ _ _ _ => true
      | _ => false
  | .LinksOnly =>
      match item.content with
      | .Link _ _ _ => true
      | _ => false

/-- `FeedFilterSettings` from `src/social/newsfeed/feed_filter.rs` lines
49-61 (`HashSet<OwnedUserId>` embedded as a string list — only membership
and emptiness are ever consulted). -/
structure FeedFilterSettings : Type where
  content_filter : ContentFilter
  authors : List String
  muted_authors : List String
  min_engagement : Nat
  max_age_seconds : Nat
deriving DecidableEq, Repr

/-- `FeedFilterSettings::matches` from `src/social/newsfeed/feed_filter.rs`
lines 115-140: content-type check, allow-list check, mute-list check,
minimum-engagement check; the source notes that the `max_age_seconds`
criterion would need a current-time comparison and defers it, so no clause
reads it. -/
def FeedFilterSettings.matches (s : FeedFilterSettings) (item : FeedItem) : Bool :=
  if ¬ s.content_filter.matches item then false
  else if ¬ s.authors.isEmpty ∧ ¬ s.authors.contains item.sender then false
  else if s.muted_authors.contains item.sender then false
  else if s.min_engagement > 0 ∧ item.engagement < s.min_engagement then false
  else true

/-- `FeedFilterSettings::apply` from `src/social/newsfeed/feed_filter.rs`
lines 145-150. -/
def FeedFilterSettings.apply (s : FeedFilterSettings) (items : List FeedItem) :
    List FeedItem :=
  items.filter (fun item => s.matches item)

/-- `FeedFilterSettings::has_active_filters` from
`src/social/newsfeed/feed_filter.rs` lines 155-161. -/
def FeedFilterSettings.has_active_filters (s : FeedFilterSettings) : Bool :=
  decide (s.content_filter ≠ .All) || ! s.authors.isEmpty
    || ! s.muted_authors.isEmpty || decide (s.min_engagement > 0)
    || decide (s.max_age_seconds > 0)

end newsfeed

/-! ## Reaction aggregation (`src/social/reactions.rs`) -/

namespace reactions

/-- `ReactionSummary` from `src/social/reactions.rs` lines 14-24: per-emoji
counts, per-emoji reacting-user sets, reaction-event ids keyed by
`(user_id, emoji)`, and the total reaction count. User and event
identifiers are embedded as strings; each `BTreeMap` becomes an
association list and each `BTreeSet` a duplicate-free list. -/
structure ReactionSummary : Type where
  counts : List (String × Nat)
  users_by_emoji : List (String × List String)
  event_ids : List ((String × String) × String)
  total : Nat
deriving DecidableEq, Repr

/-- `ReactionSummary::new` / `Default` from `src/social/reactions.rs`
lines 27-30. -/
def ReactionSummary.empty : ReactionSummary := ⟨[], [], [], 0⟩

/-- The user set stored for an emoji (empty when the emoji is absent). -/
def ReactionSummary.usersOf (s : ReactionSummary) (emoji : String) : List String :=
  (alook s.users_by_emoji emoji).getD []

/-- `ReactionSummary::count` from `src/social/reactions.rs` lines 86-88. -/
def ReactionSummary.count (s : ReactionSummary) (emoji : String) : Nat :=
  (alook s.counts emoji).getD 0

/-- `ReactionSummary::get_event_id` from `src/social/reactions.rs` lines
103-105. -/
def ReactionSummary.get_event_id (s : ReactionSummary) (user_id emoji : String) :
    Option String :=
  alook s.event_ids (user_id, emoji)

/-- `ReactionSummary::has_user_reacted` from `src/social/reactions.rs`
lines 96-100. -/
def ReactionSummary.has_user_reacted (s : ReactionSummary) (emoji user_id : String) :
    Bool :=
  (s.usersOf emoji).contains user_id

/-- `ReactionSummary::add_reaction` from `src/social/reactions.rs` lines
38-53: the user set for the emoji is materialized (`entry(..).or_default`),
and only if inserting the user actually grows it are the count bumped, the
total incremented, and the reaction event id recorded; re-adding an
already-present `(user, emoji)` pair changes nothing. `BTreeSet::insert` is
embedded as append-if-absent, which preserves exactly the observable set
membership. -/
def ReactionSummary.add_reaction (s : ReactionSummary) (emoji user_id event_id : String) :
    ReactionSummary :=
  let users := s.usersOf emoji
  if user_id ∈ users then s
  else
    { counts := aset s.counts emoji (s.count emoji + 1)
      users_by_emoji := aset s.users_by_emoji emoji (users ++ [user_id])
      event_ids := aset s.event_ids (user_id, emoji) event_id
      total := s.total + 1 }

/-- `ReactionSummary::remove_reaction` from `src/social/reactions.rs` lines
63-83: if the user is present in the emoji's user set, the user is removed,
the count is decremented saturating at zero and its entry pruned when it
reaches zero, the total is decremented saturating at zero, an emptied user
set is pruned, and the stored reaction event id is removed and returned;
otherwise nothing changes and `none` is returned. -/
def ReactionSummary.remove_reaction (s : ReactionSummary) (emoji user_id : String) :
    ReactionSummary × Option String :=
  match alook s.users_by_emoji emoji with
  | none => (s, none)
  | some users =>
      if user_id ∈ users then
        let users' := users.erase user_id
        let counts' :=
          match alook s.counts emoji with
          | none => s.counts
          | some c => if c - 1 = 0 then aerase s.counts emoji else aset s.counts emoji (c - 1)
        let ube' :=
          if users'.isEmpty then aerase s.users_by_emoji emoji
          else aset s.users_by_emoji emoji users'
        (⟨counts', ube', aerase s.event_ids (user_id, emoji), s.total - 1⟩,
          alook s.event_ids (user_id, emoji))
      else (s, none)

/-- `ReactionSummary::merge` from `src/social/reactions.rs` lines 146-151:
every `((user_id, emoji), event_id)` entry of `other` is re-applied through
`add_reaction`. -/
def ReactionSummary.merge (s other : ReactionSummary) : ReactionSummary :=
  other.event_ids.foldl
    (fun acc entry => acc.add_reaction entry.1.2 entry.1.1 entry.2) s

/-- One mutating reaction operation, for stating reachability of a summary
from the empty summary through the source's two mutators. -/
inductive ROp : Type
  | add (emoji user_id event_id : String)
  | rem (emoji user_id : String)
deriving DecidableEq, Repr

def applyOp (s : ReactionSummary) : ROp → ReactionSummary
  | .add e u i => s.add_reaction e u i
  | .rem e u => (s.remove_reaction e u).1

/-- The summary reached by running a sequence of add/remove operations on
the empty summary. -/
def buildSummary (ops : List ROp) : ReactionSummary :=
  ops.foldl applyOp ReactionSummary.empty

/-- A sequence of bare `add` calls, as in the idempotence claim. -/
def applyAdds (calls : List (String × String × String)) : ReactionSummary :=
  buildSummary (calls.map (fun c => ROp.add c.1 c.2.1 c.2.2))

end reactions

namespace reactions

theorem add_noop {s : ReactionSummary} {e u : String} (i : String)
    (h : u ∈ s.usersOf e) : s.add_reaction e u i = s := by
  simp [ReactionSummary.add_reaction, h]

theorem usersOf_add (s : ReactionSummary) (e u i e' : String) :
    (s.add_reaction e u i).usersOf e' =
      if e = e' then
        (if u ∈ s.usersOf e then s.usersOf e else s.usersOf e ++ [u])
      else s.usersOf e' := by
  by_cases hu : u ∈ s.usersOf e
  · rw [add_noop i hu]
    by_cases he : e = e'
    · subst he; simp [hu]
    · simp [he]
  · simp only [ReactionSummary.add_reaction, if_neg hu]
    show (alook (aset s.users_by_emoji e (s.usersOf e ++ [u])) e').getD [] = _
    rw [alook_aset]
    by_cases he : e = e'
    · subst he; simp [hu]
    · simp [he]; rfl

theorem count_add (s : ReactionSummary) (e u i e' : String) :
    (s.add_reaction e u i).count e' =
      if e = e' ∧ u ∉ s.usersOf e then s.count e + 1 else s.count e' := by
  by_cases hu : u ∈ s.usersOf e
  · rw [add_noop i hu]; simp [hu]
  · simp only [ReactionSummary.add_reaction, if_neg hu]
    show (alook (aset s.counts e (s.count e + 1)) e').getD 0 = _
    rw [alook_aset]
    by_cases he : e = e'
    · subst he; simp [hu]
    · simp [he]; rfl

theorem get_event_id_add (s : ReactionSummary) (e u i u' e' : String) :
    (s.add_reaction e u i).get_event_id u' e' =
      if (u, e) = (u', e') ∧ u ∉ s.usersOf e then some i
      else s.get_event_id u' e' := by
  by_cases hu : u ∈ s.usersOf e
  · rw [add_noop i hu]; simp [hu]
  · simp only [ReactionSummary.add_reaction, if_neg hu]
    show alook (aset s.event_ids (u, e) i) (u', e') = _
    rw [alook_aset]
    by_cases hk : (u, e) = (u', e')
    · simp [hk, hu]
    · simp [hk]; rfl

theorem total_add (s : ReactionSummary) (e u i : String) :
    (s.add_reaction e u i).total =
      if u ∈ s.usersOf e then s.total else s.total + 1 := by
  by_cases hu : u ∈ s.usersOf e
  · rw [add_noop i hu]; simp [hu]
  · simp [ReactionSummary.add_reaction, hu]

/-- The state invariant every summary reachable from the empty summary
satisfies: all three maps have duplicate-free keys, each user set is
duplicate-free, each stored count is the size of the corresponding user
set, a reaction event id is stored for exactly the `(user, emoji)` pairs
in the user sets, and the total is the number of stored event ids. -/
structure WF (s : ReactionSummary) : Prop where
  ubeKeys : (s.users_by_emoji.map Prod.fst).Nodup
  countKeys : (s.counts.map Prod.fst).Nodup
  eidKeys : (s.event_ids.map Prod.fst).Nodup
  usersNodup : ∀ e, (s.usersOf e).Nodup
  countEq : ∀ e, s.count e = (s.usersOf e).length
  eidIff : ∀ u e, (s.get_event_id u e).isSome ↔ u ∈ s.usersOf e
  totalEq : s.total = s.event_ids.length

theorem wf_empty : WF ReactionSummary.empty := by
  constructor <;>
    simp [ReactionSummary.empty, ReactionSummary.usersOf, ReactionSummary.count,
      ReactionSummary.get_event_id, alook]

theorem wf_add {s : ReactionSummary} (h : WF s) (e u i : String) :
    WF (s.add_reaction e u i) := by
  by_cases hu : u ∈ s.usersOf e
  · rw [add_noop i hu]; exact h
  · constructor
    · simp only [ReactionSummary.add_reaction, if_neg hu]
      exact keys_aset_nodup _ _ _ h.ubeKeys
    · simp only [ReactionSummary.add_reaction, if_neg hu]
      exact keys_aset_nodup _ _ _ h.countKeys
    · simp only [ReactionSummary.add_reaction, if_neg hu]
      exact keys_aset_nodup _ _ _ h.eidKeys
    · intro e'
      rw [usersOf_add]
      by_cases he : e = e'
      · subst he
        rw [if_pos rfl, if_neg hu, List.nodup_append]
        exact ⟨h.usersNodup e, List.nodup_singleton u, by simpa using hu⟩
      · simp only [if_neg he]
        exact h.usersNodup e'
    · intro e'
      rw [count_add, usersOf_add]
      by_cases he : e = e'
      · subst he
        simp [hu, h.countEq e]
      · simp [he, h.countEq e']
    · intro u' e'
      rw [get_event_id_add, usersOf_add]
      by_cases hk : (u, e) = (u', e')
      · rw [Prod.mk.injEq] at hk
        obtain ⟨hu', he'⟩ := hk
        subst hu'; subst he'
        simp [hu]
      · rw [if_neg (fun hc => hk hc.1)]
        rw [h.eidIff u' e']
        by_cases he : e = e'
        · subst he
          have hne : u ≠ u' := by
            intro hc; exact hk (by rw [hc])
          rw [if_pos rfl, if_neg hu]
          simp [List.mem_append, Ne.symm hne]
        · rw [if_neg he]
    · simp only [ReactionSummary.add_reaction, if_neg hu]
      show s.total + 1 = (aset s.event_ids (u, e) i).length
      have hnone : alook s.event_ids (u, e) = none := by
        have := (h.eidIff u e).not.mpr hu
        cases halt : alook s.event_ids (u, e) with
        | none => rfl
        | some v =>
            exfalso
            apply this
            show (s.get_event_id u e).isSome
            unfold ReactionSummary.get_event_id
            simp [halt]
      rw [length_aset_of_alook_none i hnone, h.totalEq]

theorem wf_remove {s : ReactionSummary} (h : WF s) (e u : String) :
    WF (s.remove_reaction e u).1 := by
  unfold ReactionSummary.remove_reaction
  cases halt : alook s.users_by_emoji e with
  | none => exact h
  | some users =>
      by_cases hmem : u ∈ users
      · have husers : s.usersOf e = users := by
          unfold ReactionSummary.usersOf; rw [halt]; rfl
        have hund : users.Nodup := husers ▸ h.usersNodup e
        have hlen : 0 < users.length := List.length_pos_of_mem hmem
        have hcs : alook s.counts e = some users.length := by
          have hc := h.countEq e
          rw [husers] at hc
          unfold ReactionSummary.count at hc
          cases hcl : alook s.counts e with
          | none => rw [hcl] at hc; simp at hc; omega
          | some c => rw [hcl] at hc; simp at hc; rw [hc]
        have herased : u ∉ users.erase u := by
          intro hc
          exact ((hund.mem_erase_iff).mp hc).1 rfl
        have herlen : (users.erase u).length = users.length - 1 :=
          List.length_erase_of_mem hmem
        simp only [if_pos hmem, hcs]
        constructor
        · by_cases hemp : (users.erase u).isEmpty
          · simp only [if_pos hemp]
            exact keys_aerase_nodup _ _ h.ubeKeys
          · simp only [if_neg hemp]
            exact keys_aset_nodup _ _ _ h.ubeKeys
        · by_cases hz : users.length - 1 = 0
          · simp only [if_pos hz]
            exact keys_aerase_nodup _ _ h.countKeys
          · simp only [if_neg hz]
            exact keys_aset_nodup _ _ _ h.countKeys
        · exact keys_aerase_nodup _ _ h.eidKeys
        · intro e'
          simp only [ReactionSummary.usersOf]
          by_cases hemp : (users.erase u).isEmpty
          · simp only [if_pos hemp]
            rw [alook_aerase _ _ _ h.ubeKeys]
            by_cases he : e = e'
            · simp [he]
            · simp only [if_neg he]
              exact h.usersNodup e'
          · simp only [if_neg hemp]
            rw [alook_aset]
            by_cases he : e = e'
            · simp only [if_pos he, Option.getD_some]
              exact hund.erase u
            · simp only [if_neg he]
              exact h.usersNodup e'
        · intro e'
          have husr : ((alook (if (users.erase u).isEmpty then aerase s.users_by_emoji e
              else aset s.users_by_emoji e (users.erase u)) e').getD []) =
              if e = e' then users.erase u else s.usersOf e' := by
            by_cases hemp : (users.erase u).isEmpty
            · simp only [if_pos hemp]
              rw [alook_aerase _ _ _ h.ubeKeys]
              by_cases he : e = e'
              · rw [if_pos he, if_pos he, List.isEmpty_iff.mp hemp]; rfl
              · rw [if_neg he, if_neg he]; rfl
            · simp only [if_neg hemp]
              rw [alook_aset]
              by_cases he : e = e'
              · rw [if_pos he, if_pos he]; rfl
              · rw [if_neg he, if_neg he]; rfl
          simp only [ReactionSummary.count, ReactionSummary.usersOf]
          rw [husr]
          by_cases hz : users.length - 1 = 0
          · simp only [if_pos hz]
            rw [alook_aerase _ _ _ h.countKeys]
            by_cases he : e = e'
            · rw [if_pos he, if_pos he]
              simp [herlen, hz]
            · rw [if_neg he, if_neg he]
              exact h.countEq e'
          · simp only [if_neg hz]
            rw [alook_aset]
            by_cases he : e = e'
            · rw [if_pos he, if_pos he]
              simp [herlen]
            · rw [if_neg he, if_neg he]
              exact h.countEq e'
        · intro u' e'
          have husr : ((alook (if (users.erase u).isEmpty then aerase s.users_by_emoji e
              else aset s.users_by_emoji e (users.erase u)) e').getD []) =
              if e = e' then users.erase u else s.usersOf e' := by
            by_cases hemp : (users.erase u).isEmpty
            · simp only [if_pos hemp]
              rw [alook_aerase _ _ _ h.ubeKeys]
              by_cases he : e = e'
              · rw [if_pos he, if_pos he, List.isEmpty_iff.mp hemp]; rfl
              · rw [if_neg he, if_neg he]; rfl
            · simp only [if_neg hemp]
              rw [alook_aset]
              by_cases he : e = e'
              · rw [if_pos he, if_pos he]; rfl
              · rw [if_neg he, if_neg he]; rfl
          simp only [ReactionSummary.get_event_id, ReactionSummary.usersOf]
          rw [husr, alook_aerase _ _ _ h.eidKeys]
          by_cases hk : (u, e) = (u', e')
          · rw [if_pos hk]
            have hue : u = u' ∧ e = e' := by
              rw [Prod.mk.injEq] at hk; exact hk
            rw [if_pos hue.2]
            simp only [Option.isSome_none, Bool.false_eq_true, false_iff]
            rw [← hue.1]
            exact herased
          · rw [if_neg hk]
            have hiff := h.eidIff u' e'
            unfold ReactionSummary.get_event_id at hiff
            rw [hiff]
            by_cases he : e = e'
            · rw [if_pos he]
              have hne : u' ≠ u := by
                intro hc
                exact hk (by rw [hc, he])
              rw [hund.mem_erase_iff]
              subst he
              rw [husers]
              simp [hne]
            · rw [if_neg he]
        · have hsome : (alook s.event_ids (u, e)).isSome := by
            have := (h.eidIff u e).mpr (husers ▸ hmem)
            unfold ReactionSummary.get_event_id at this
            exact this
          obtain ⟨v, hv⟩ := Option.isSome_iff_exists.mp hsome
          show s.total - 1 = (aerase s.event_ids (u, e)).length
          rw [length_aerase_of_alook_some hv, h.totalEq]
      · simp only [if_neg hmem]
        exact h

/-- The fold that re-applies a list of `((user, emoji), event_id)` entries
through `add_reaction`; `merge` is exactly this fold over the other
summary's `event_ids` entries. -/
def foldAdd (s : ReactionSummary) (l : List ((String × String) × String)) :
    ReactionSummary :=
  l.foldl (fun acc entry => acc.add_reaction entry.1.2 entry.1.1 entry.2) s

theorem merge_eq_foldAdd (s other : ReactionSummary) :
    s.merge other = foldAdd s other.event_ids := rfl

theorem wf_foldAdd {s : ReactionSummary} (h : WF s)
    (l : List ((String × String) × String)) : WF (foldAdd s l) := by
  induction l generalizing s with
  | nil => exact h
  | cons hd tl ih => exact ih (wf_add h _ _ _)

theorem wf_buildSummary (ops : List ROp) : WF (buildSummary ops) := by
  have hgen : ∀ (l : List ROp) (s : ReactionSummary), WF s → WF (l.foldl applyOp s) := by
    intro l
    induction l with
    | nil => intro s hs; exact hs
    | cons hd tl ih =>
        intro s hs
        cases hd with
        | add e u i => exact ih _ (wf_add hs e u i)
        | rem e u => exact ih _ (wf_remove hs e u)
  exact hgen ops ReactionSummary.empty wf_empty

theorem mem_usersOf_foldAdd (l : List ((String × String) × String))
    (s : ReactionSummary) (u e : String) :
    u ∈ (foldAdd s l).usersOf e ↔
      u ∈ s.usersOf e ∨ ∃ i, ((u, e), i) ∈ l := by
  induction l generalizing s with
  | nil => simp [foldAdd]
  | cons hd tl ih =>
      obtain ⟨⟨u₀, e₀⟩, i₀⟩ := hd
      show u ∈ (foldAdd (s.add_reaction e₀ u₀ i₀) tl).usersOf e ↔ _
      rw [ih]
      have hadd : u ∈ (s.add_reaction e₀ u₀ i₀).usersOf e ↔
          u ∈ s.usersOf e ∨ (u = u₀ ∧ e = e₀) := by
        rw [usersOf_add]
        by_cases he : e₀ = e
        · rw [if_pos he]
          by_cases hu : u₀ ∈ s.usersOf e₀
          · rw [if_pos hu]
            subst he
            constructor
            · intro hm; exact Or.inl hm
            · rintro (hm | ⟨rfl, -⟩)
              · exact hm
              · exact hu
          · rw [if_neg hu]
            subst he
            rw [List.mem_append, List.mem_singleton]
            constructor
            · rintro (hm | hm)
              · exact Or.inl hm
              · exact Or.inr ⟨hm, rfl⟩
            · rintro (hm | ⟨rfl, -⟩)
              · exact Or.inl hm
              · exact Or.inr rfl
        · rw [if_neg he]
          constructor
          · intro hm; exact Or.inl hm
          · rintro (hm | ⟨hq, he'⟩)
            · exact hm
            · exact absurd he'.symm he
      rw [hadd]
      constructor
      · rintro ((hm | ⟨rfl, rfl⟩) | ⟨i, hi⟩)
        · exact Or.inl hm
        · exact Or.inr ⟨i₀, by simp⟩
        · exact Or.inr ⟨i, List.mem_cons_of_mem _ hi⟩
      · rintro (hm | ⟨i, hi⟩)
        · exact Or.inl (Or.inl hm)
        · rcases List.mem_cons.mp hi with heq | htl
          · have : u = u₀ ∧ e = e₀ ∧ i = i₀ := by
              have h1 := congrArg Prod.fst heq
              have h2 := congrArg Prod.snd heq
              simp at h1 h2
              exact ⟨h1.1, h1.2, h2⟩
            exact Or.inl (Or.inr ⟨this.1, this.2.1⟩)
          · exact Or.inr ⟨i, htl⟩

theorem get_event_id_foldAdd (l : List ((String × String) × String))
    (s : ReactionSummary) (u e : String) :
    (foldAdd s l).get_event_id u e =
      if u ∈ s.usersOf e then s.get_event_id u e
      else (alook l (u, e)).or (s.get_event_id u e) := by
  induction l generalizing s with
  | nil =>
      show s.get_event_id u e = _
      by_cases hu : u ∈ s.usersOf e
      · rw [if_pos hu]
      · rw [if_neg hu]
        show _ = (none : Option String).or _
        rw [Option.none_or]
  | cons hd tl ih =>
      obtain ⟨⟨u₀, e₀⟩, i₀⟩ := hd
      show (foldAdd (s.add_reaction e₀ u₀ i₀) tl).get_event_id u e = _
      rw [ih]
      by_cases hk : (u₀, e₀) = (u, e)
      · have hue : u₀ = u ∧ e₀ = e := by rw [Prod.mk.injEq] at hk; exact hk
        obtain ⟨rfl, rfl⟩ := hue
        by_cases hu : u₀ ∈ s.usersOf e₀
        · rw [add_noop i₀ hu, if_pos hu, if_pos hu]
        · have hmem : u₀ ∈ (s.add_reaction e₀ u₀ i₀).usersOf e₀ := by
            rw [usersOf_add]
            simp [hu]
          rw [if_pos hmem, if_neg hu]
          have hgei : (s.add_reaction e₀ u₀ i₀).get_event_id u₀ e₀ = some i₀ := by
            rw [get_event_id_add]
            simp [hu]
          rw [hgei]
          show _ = (alook (((u₀, e₀), i₀) :: tl) (u₀, e₀)).or _
          have halk : alook (((u₀, e₀), i₀) :: tl) (u₀, e₀) = some i₀ := by
            simp [alook]
          rw [halk]
          rfl
      · have hmm : u ∈ (s.add_reaction e₀ u₀ i₀).usersOf e ↔ u ∈ s.usersOf e := by
          rw [usersOf_add]
          by_cases he : e₀ = e
          · subst he
            by_cases hu : u₀ ∈ s.usersOf e₀
            · simp [hu]
            · have hne : u ≠ u₀ := by
                intro hc
                exact hk (by rw [hc])
              simp only [if_pos rfl, if_neg hu, List.mem_append, List.mem_singleton]
              simp [hne]
          · simp [he]
        have hgei : (s.add_reaction e₀ u₀ i₀).get_event_id u e = s.get_event_id u e := by
          rw [get_event_id_add]
          simp [hk]
        have halk : alook (((u₀, e₀), i₀) :: tl) (u, e) = alook tl (u, e) := by
          simp [alook, hk]
        rw [hgei, halk]
        by_cases hu : u ∈ s.usersOf e
        · rw [if_pos (hmm.mpr hu), if_pos hu]
        · rw [if_neg (fun hc => hu (hmm.mp hc)), if_neg hu]

theorem length_eq_of_alook_eq {α β : Type} [DecidableEq α] {l₁ l₂ : List (α × β)}
    (h₁ : (l₁.map Prod.fst).Nodup) (h₂ : (l₂.map Prod.fst).Nodup)
    (h : ∀ k, alook l₁ k = alook l₂ k) : l₁.length = l₂.length := by
  have hkeys : (l₁.map Prod.fst).toFinset = (l₂.map Prod.fst).toFinset := by
    ext k
    rw [List.mem_toFinset, List.mem_toFinset, ← alook_isSome_iff_mem,
      ← alook_isSome_iff_mem, h k]
  have hl1 : l₁.length = (l₁.map Prod.fst).toFinset.card := by
    rw [List.toFinset_card_of_nodup h₁, List.length_map]
  have hl2 : l₂.length = (l₂.map Prod.fst).toFinset.card := by
    rw [List.toFinset_card_of_nodup h₂, List.length_map]
  rw [hl1, hl2, hkeys]

theorem exists_entry_iff_mem_usersOf {t : ReactionSummary} (ht : WF t) (u e : String) :
    (∃ i, ((u, e), i) ∈ t.event_ids) ↔ u ∈ t.usersOf e := by
  constructor
  · rintro ⟨i, hi⟩
    exact (ht.eidIff u e).mp (alook_isSome_of_mem hi)
  · intro hm
    have hsome := (ht.eidIff u e).mpr hm
    obtain ⟨v, hv⟩ := Option.isSome_iff_exists.mp hsome
    exact ⟨v, mem_of_alook_eq_some hv⟩

theorem mem_usersOf_merge {s t : ReactionSummary} (ht : WF t) (u e : String) :
    u ∈ (s.merge t).usersOf e ↔ u ∈ s.usersOf e ∨ u ∈ t.usersOf e := by
  rw [merge_eq_foldAdd, mem_usersOf_foldAdd, exists_entry_iff_mem_usersOf ht]

theorem usersOf_empty (e : String) : ReactionSummary.empty.usersOf e = [] := rfl

theorem count_merge_empty {s : ReactionSummary} (h : WF s) (e : String) :
    (ReactionSummary.empty.merge s).count e = s.count e := by
  have hm : WF (ReactionSummary.empty.merge s) := by
    rw [merge_eq_foldAdd]
    exact wf_foldAdd wf_empty _
  rw [hm.countEq e, h.countEq e]
  rw [← List.toFinset_card_of_nodup (hm.usersNodup e),
    ← List.toFinset_card_of_nodup (h.usersNodup e)]
  congr 1
  ext u
  rw [List.mem_toFinset, List.mem_toFinset, mem_usersOf_merge h, usersOf_empty]
  simp

theorem mem_usersOf_merge_empty {s : ReactionSummary} (h : WF s) (u e : String) :
    u ∈ (ReactionSummary.empty.merge s).usersOf e ↔ u ∈ s.usersOf e := by
  rw [mem_usersOf_merge h, usersOf_empty]
  simp

theorem get_event_id_merge_empty {s : ReactionSummary} (u e : String) :
    (ReactionSummary.empty.merge s).get_event_id u e = s.get_event_id u e := by
  rw [merge_eq_foldAdd, get_event_id_foldAdd, usersOf_empty]
  rw [if_neg (List.not_mem_nil u)]
  show (alook s.event_ids (u, e)).or none = alook s.event_ids (u, e)
  cases halt : alook s.event_ids (u, e) with
  | none => rfl
  | some v => rfl

theorem total_merge_empty {s : ReactionSummary} (h : WF s) :
    (ReactionSummary.empty.merge s).total = s.total := by
  have hm : WF (ReactionSummary.empty.merge s) := by
    rw [merge_eq_foldAdd]
    exact wf_foldAdd wf_empty _
  rw [hm.totalEq, h.totalEq]
  apply length_eq_of_alook_eq hm.eidKeys h.eidKeys
  rintro ⟨u, e⟩
  exact get_event_id_merge_empty u e

theorem foldAdd_fixed {s : ReactionSummary} {l : List ((String × String) × String)}
    (h : ∀ en ∈ l, en.1.1 ∈ s.usersOf en.1.2) : foldAdd s l = s := by
  induction l with
  | nil => rfl
  | cons hd tl ih =>
      show foldAdd (s.add_reaction hd.1.2 hd.1.1 hd.2) tl = s
      rw [add_noop hd.2 (h hd (List.mem_cons_self hd tl))]
      exact ih (fun en hen => h en (List.mem_cons_of_mem hd hen))

theorem merge_self {s : ReactionSummary} (h : WF s) : s.merge s = s := by
  rw [merge_eq_foldAdd]
  apply foldAdd_fixed
  rintro ⟨⟨u, e⟩, i⟩ hen
  exact (h.eidIff u e).mp (alook_isSome_of_mem hen)

theorem count_merge_union {s t : ReactionSummary} (hs : WF s) (ht : WF t) (e : String) :
    (s.merge t).count e = ((s.usersOf e).toFinset ∪ (t.usersOf e).toFinset).card := by
  have hm : WF (s.merge t) := by
    rw [merge_eq_foldAdd]
    exact wf_foldAdd hs _
  rw [hm.countEq e, ← List.toFinset_card_of_nodup (hm.usersNodup e)]
  congr 1
  ext u
  rw [List.mem_toFinset, Finset.mem_union, List.mem_toFinset, List.mem_toFinset]
  exact mem_usersOf_merge ht u e

end reactions

namespace reactions

theorem sum_aset {α : Type} [DecidableEq α] (l : List (α × Nat)) (k : α) (v : Nat) :
    ((aset l k v).map Prod.snd).sum + (alook l k).getD 0 = (l.map Prod.snd).sum + v := by
  induction l with
  | nil => simp [aset, alook]
  | cons hd tl ih =>
      obtain ⟨k₀, v₀⟩ := hd
      by_cases h0 : k₀ = k
      · subst h0
        have hset : aset ((k₀, v₀) :: tl) k₀ v = (k₀, v) :: tl := by simp [aset]
        have halk : alook ((k₀, v₀) :: tl) k₀ = some v₀ := by simp [alook]
        rw [hset, halk]
        simp only [List.map_cons, List.sum_cons, Option.getD_some]
        omega
      · have hset : aset ((k₀, v₀) :: tl) k v = (k₀, v₀) :: aset tl k v := by
          simp [aset, h0]
        have halk : alook ((k₀, v₀) :: tl) k = alook tl k := by simp [alook, h0]
        rw [hset, halk]
        simp only [List.map_cons, List.sum_cons]
        omega

/-- The invariant that the stored total equals the sum of the stored
per-emoji counts. -/
def SumInv (s : ReactionSummary) : Prop :=
  s.total = (s.counts.map Prod.snd).sum

theorem sumInv_empty : SumInv ReactionSummary.empty := rfl

theorem sumInv_add {s : ReactionSummary} (h : SumInv s) (e u i : String) :
    SumInv (s.add_reaction e u i) := by
  by_cases hu : u ∈ s.usersOf e
  · rw [add_noop i hu]; exact h
  · unfold SumInv at h ⊢
    simp only [ReactionSummary.add_reaction, if_neg hu]
    have := sum_aset s.counts e (s.count e + 1)
    unfold ReactionSummary.count at this ⊢
    omega

theorem sumInv_applyAdds (calls : List (String × String × String)) :
    SumInv (applyAdds calls) := by
  unfold applyAdds buildSummary
  rw [List.foldl_map]
  have hgen : ∀ (l : List (String × String × String)) (s : ReactionSummary), SumInv s →
      SumInv (l.foldl (fun acc c => applyOp acc (ROp.add c.1 c.2.1 c.2.2)) s) := by
    intro l
    induction l with
    | nil => intro s hs; exact hs
    | cons hd tl ih => intro s hs; exact ih _ (sumInv_add hs _ _ _)
  exact hgen calls ReactionSummary.empty sumInv_empty

theorem applyAdds_eq_foldAdd (calls : List (String × String × String)) :
    applyAdds calls =
      foldAdd ReactionSummary.empty (calls.map (fun c => ((c.2.1, c.1), c.2.2))) := by
  unfold applyAdds buildSummary foldAdd
  rw [List.foldl_map, List.foldl_map]
  rfl

theorem wf_applyAdds (calls : List (String × String × String)) : WF (applyAdds calls) := by
  rw [applyAdds_eq_foldAdd]
  exact wf_foldAdd wf_empty _

/-- The users who issued an `add` call for `emoji`, in call order with
duplicates retained. -/
def usersWhoAdded (calls : List (String × String × String)) (emoji : String) :
    List String :=
  calls.filterMap (fun c => if c.1 = emoji then some c.2.1 else none)

theorem mem_usersOf_applyAdds (calls : List (String × String × String)) (u e : String) :
    u ∈ (applyAdds calls).usersOf e ↔ u ∈ usersWhoAdded calls e := by
  rw [applyAdds_eq_foldAdd, mem_usersOf_foldAdd, usersOf_empty]
  simp only [List.not_mem_nil, false_or]
  unfold usersWhoAdded
  constructor
  · rintro ⟨i, hi⟩
    rcases List.mem_map.mp hi with ⟨c, hc, hceq⟩
    have h1 : c.2.1 = u ∧ c.1 = e ∧ c.2.2 = i := by
      have ha := congrArg (fun p => p.1.1) hceq
      have hb := congrArg (fun p => p.1.2) hceq
      have hd := congrArg (fun p => p.2) hceq
      exact ⟨ha, hb, hd⟩
    rw [List.mem_filterMap]
    exact ⟨c, hc, by rw [h1.2.1, if_pos rfl, h1.1]⟩
  · intro hm
    rcases List.mem_filterMap.mp hm with ⟨c, hc, hceq⟩
    by_cases hce : c.1 = e
    · rw [if_pos hce] at hceq
      refine ⟨c.2.2, List.mem_map.mpr ⟨c, hc, ?_⟩⟩
      rw [Option.some.injEq] at hceq
      rw [hceq, hce]
    · rw [if_neg hce] at hceq
      exact absurd hceq (Option.noConfusion)

theorem count_applyAdds (calls : List (String × String × String)) (e : String) :
    (applyAdds calls).count e = (usersWhoAdded calls e).toFinset.card := by
  have hwf : WF (applyAdds calls) := wf_applyAdds calls
  rw [hwf.countEq e, ← List.toFinset_card_of_nodup (hwf.usersNodup e)]
  congr 1
  ext u
  rw [List.mem_toFinset, List.mem_toFinset]
  exact mem_usersOf_applyAdds calls u e

end reactions

/-! ## Claim theorems -/

/-- C1: for every claimed-owner string and every actual author, the RSVP
ownership validation on an org.social.rsvp event returns SenderMismatch
carrying both identities when the parsed claimed owner differs from the
actual author, Valid when they are equal, and InvalidContent when the
claimed-owner string does not parse as a user identity; being a function,
it produces exactly one of these results per call. -/
theorem C1_rsvp_ownership_validation (state_key sender claimed : String) :
    (events.rsvp.parseUserId state_key = some claimed →
      (claimed ≠ sender →
        events.rsvp.validate_rsvp_event "org.social.rsvp" state_key sender
          = .SenderMismatch claimed sender) ∧
      (claimed = sender →
        events.rsvp.validate_rsvp_event "org.social.rsvp" state_key sender
          = .Valid)) ∧
    (events.rsvp.parseUserId state_key = none →
      events.rsvp.validate_rsvp_event "org.social.rsvp" state_key sender
        = .InvalidContent ("Invalid state_key: " ++ state_key)) := by
  constructor
  · intro hparse
    constructor
    · intro hne
      unfold events.rsvp.validate_rsvp_event
      rw [if_pos rfl, hparse]
      simp [hne]
    · intro heq
      unfold events.rsvp.validate_rsvp_event
      rw [if_pos rfl, hparse]
      simp [heq]
  · intro hparse
    unfold events.rsvp.validate_rsvp_event
    rw [if_pos rfl, hparse]

/-- Witness for C1 at concrete inputs: a spoofed state key, a matching
state key, and the spec's non-identity example string. -/
theorem C1_rsvp_ownership_validation_witness :
    events.rsvp.validate_rsvp_event "org.social.rsvp" "@alice:example.org" "@bob:example.org"
      = .SenderMismatch "@alice:example.org" "@bob:example.org" ∧
    events.rsvp.validate_rsvp_event "org.social.rsvp" "@alice:example.org" "@alice:example.org"
      = .Valid ∧
    events.rsvp.validate_rsvp_event "org.social.rsvp" "not_a_user_id" "@alice:example.org"
      = .InvalidContent "Invalid state_key: not_a_user_id" := by
  have h1 := C1_rsvp_ownership_validation "@alice:example.org" "@bob:example.org"
    "@alice:example.org"
  have h2 := C1_rsvp_ownership_validation "@alice:example.org" "@alice:example.org"
    "@alice:example.org"
  have h3 := C1_rsvp_ownership_validation "not_a_user_id" "@alice:example.org"
    "@alice:example.org"
  exact ⟨(h1.1 (by decide)).1 (by decide), (h2.1 (by decide)).2 rfl,
    h3.2 (by decide)⟩

/-- C9: for every state event whose event type is not org.social.rsvp,
validate_rsvp_event returns Valid unconditionally, for every state key and
sender. -/
theorem C9_non_rsvp_events_valid (event_type state_key sender : String)
    (h : event_type ≠ "org.social.rsvp") :
    events.rsvp.validate_rsvp_event event_type state_key sender = .Valid := by
  unfold events.rsvp.validate_rsvp_event
  rw [if_neg h]

/-- Witness for C9 at a concrete non-RSVP event type with a state key that
would fail both the parse and the ownership comparison. -/
theorem C9_non_rsvp_events_valid_witness :
    events.rsvp.validate_rsvp_event "m.room.member" "not_a_user_id" "@bob:example.org"
      = .Valid :=
  C9_non_rsvp_events_valid "m.room.member" "not_a_user_id" "@bob:example.org" (by decide)

/-- C2: whenever the source privacy may flow to the target (so the prior
rules pass; the Friends-to-Public pair in particular never reaches the
attachment rule because its lattice check already fails) and some
attachment's privacy may not flow to the target, validate_share returns
AttachmentPrivacyMismatch carrying the first offending attachment's room
and privacy in input order (List.find? returns the first match), a variant
the ShareValidation result type includes. -/
theorem C2_attachment_privacy_mismatch (source_room : String)
    (source_privacy : PrivacyLevel) (target_room : String)
    (target_privacy : PrivacyLevel) (mentions : List String)
    (attachments : List (String × PrivacyLevel)) (room : String) (priv : PrivacyLevel)
    (hpass : source_privacy.can_share_to target_privacy = true)
    (hfirst : attachments.find? (fun a => ! a.2.can_share_to target_privacy)
      = some (room, priv)) :
    privacy.validate_share source_room source_privacy target_room target_privacy
      mentions attachments = .AttachmentPrivacyMismatch room priv := by
  unfold privacy.validate_share
  rw [if_neg (by simp [hpass]), hfirst]

/-- Witness for C2: public content shared to a public room with a private
attachment first in the list. -/
theorem C2_attachment_privacy_mismatch_witness :
    privacy.validate_share "!src:example.org" .Public "!dst:example.org" .Public []
      [("!att:example.org", .Private), ("!ok:example.org", .Public)]
      = .AttachmentPrivacyMismatch "!att:example.org" .Private :=
  C2_attachment_privacy_mismatch "!src:example.org" .Public "!dst:example.org" .Public []
    [("!att:example.org", .Private), ("!ok:example.org", .Public)]
    "!att:example.org" .Private (by decide) (by decide)

/-- C3: in the sharing_guard module, sharing Friends content to a Public
target yields RequiresConfirmation for every mention and membership list
(the special case runs before the lattice rule, which would otherwise block
it since can_share_to Friends Public is false); CloseFriends to Public is
BlockedPrivacyLeak carrying that source and target; Public to Friends and
Friends to Friends with no mentioned users are Allowed. -/
theorem C3_validate_share_cases (source_room target_room : String)
    (mentioned_users target_members : List String) :
    sharing_guard.validate_share source_room .Friends target_room .Public
      mentioned_users target_members
      = .RequiresConfirmation
          "You are about to share friends-only content publicly. The original author may not have intended this content to be shared publicly." ∧
    PrivacyLevel.can_share_to .Friends .Public = false ∧
    sharing_guard.validate_share source_room .CloseFriends target_room .Public
      mentioned_users target_members
      = .BlockedPrivacyLeak .CloseFriends .Public
          "Cannot share close friends content to public audience" ∧
    sharing_guard.validate_share source_room .Public target_room .Friends
      [] target_members = .Allowed ∧
    sharing_guard.validate_share source_room .Friends target_room .Friends
      [] target_members = .Allowed := by
  refine ⟨?_, by decide, ?_, ?_, ?_⟩
  · unfold sharing_guard.validate_share
    rw [if_pos ⟨rfl, rfl⟩]
  · unfold sharing_guard.validate_share
    rw [if_neg (by decide), if_pos (by decide)]
    rfl
  · unfold sharing_guard.validate_share
    rw [if_neg (by decide), if_neg (by decide)]
    simp
  · unfold sharing_guard.validate_share
    rw [if_neg (by decide), if_neg (by decide)]
    simp

/-- C4: over the four privacy levels with ordinals Public 0, Friends 1,
CloseFriends 2, Private 3, can_share_to a b holds exactly when the ordinal
of b is at least the ordinal of a; it is reflexive, and Private content can
never flow to Public. -/
theorem C4_privacy_lattice :
    (∀ a b : PrivacyLevel, a.can_share_to b = decide (b.ordinal ≥ a.ordinal)) ∧
    (∀ x : PrivacyLevel, x.can_share_to x = true) ∧
    PrivacyLevel.can_share_to .Private .Public = false ∧
    PrivacyLevel.ordinal .Public = 0 ∧ PrivacyLevel.ordinal .Friends = 1 ∧
    PrivacyLevel.ordinal .CloseFriends = 2 ∧ PrivacyLevel.ordinal .Private = 3 := by
  refine ⟨?_, ?_, by decide, rfl, rfl, rfl, rfl⟩
  · intro a b
    cases a <;> cases b <;> decide
  · intro x
    cases x <;> decide

/-- C5: after any sequence of add calls on an initially empty summary, the
stored count for each emoji is the number of distinct users that added it,
the stored total is the sum of the stored per-emoji counts, and re-adding
an already-present user-emoji pair is a no-op on the entire summary state
(counts, total, user sets and the record-id mapping alike). -/
theorem C5_reaction_add_idempotent (calls : List (String × String × String)) (e : String) :
    (reactions.applyAdds calls).count e = (reactions.usersWhoAdded calls e).toFinset.card ∧
    (reactions.applyAdds calls).total
      = ((reactions.applyAdds calls).counts.map Prod.snd).sum ∧
    (∀ (s : reactions.ReactionSummary) (u i : String),
      u ∈ s.usersOf e → s.add_reaction e u i = s) := by
  refine ⟨reactions.count_applyAdds calls e, reactions.sumInv_applyAdds calls, ?_⟩
  intro s u i hu
  exact reactions.add_noop i hu

/-- Witness for C5: the spec's duplicate-add example, where alice adds the
same reaction twice with two record ids; the count and total stay 1 and the
duplicate call is a no-op. -/
theorem C5_reaction_add_idempotent_witness :
    (reactions.applyAdds [("like", "@alice:x", "$r1"), ("like", "@alice:x", "$r2")]).count "like"
      = (reactions.usersWhoAdded [("like", "@alice:x", "$r1"), ("like", "@alice:x", "$r2")]
          "like").toFinset.card ∧
    (reactions.applyAdds [("like", "@alice:x", "$r1"), ("like", "@alice:x", "$r2")]).total
      = ((reactions.applyAdds [("like", "@alice:x", "$r1"), ("like", "@alice:x", "$r2")]).counts.map
          Prod.snd).sum ∧
    (reactions.applyAdds [("like", "@alice:x", "$r1")]).add_reaction "like" "@alice:x" "$r2"
      = reactions.applyAdds [("like", "@alice:x", "$r1")] := by
  have h := C5_reaction_add_idempotent
    [("like", "@alice:x", "$r1"), ("like", "@alice:x", "$r2")] "like"
  refine ⟨h.1, h.2.1, ?_⟩
  have h2 := C5_reaction_add_idempotent [("like", "@alice:x", "$r1")] "like"
  exact h2.2.2 (reactions.applyAdds [("like", "@alice:x", "$r1")]) "@alice:x" "$r2" (by decide)

/-- C6: for summaries reachable from the empty summary by add and remove
operations, merging into a fresh empty summary reproduces the same per-emoji
counts, the same per-emoji user sets, the same record-id mapping and the
same total; merging a summary into itself is the identity; and merging two
overlapping summaries gives each emoji exactly the number of distinct
contributing users, so no count ever exceeds it (no double-counting). -/
theorem C6_merge_roundtrip_no_double_count (ops other_ops : List reactions.ROp)
    (e u : String) :
    ((reactions.ReactionSummary.empty.merge (reactions.buildSummary ops)).count e
      = (reactions.buildSummary ops).count e) ∧
    (u ∈ (reactions.ReactionSummary.empty.merge (reactions.buildSummary ops)).usersOf e
      ↔ u ∈ (reactions.buildSummary ops).usersOf e) ∧
    ((reactions.ReactionSummary.empty.merge (reactions.buildSummary ops)).get_event_id u e
      = (reactions.buildSummary ops).get_event_id u e) ∧
    ((reactions.ReactionSummary.empty.merge (reactions.buildSummary ops)).total
      = (reactions.buildSummary ops).total) ∧
    ((reactions.buildSummary ops).merge (reactions.buildSummary ops)
      = reactions.buildSummary ops) ∧
    ((reactions.buildSummary ops).merge (reactions.buildSummary other_ops)).count e
      ≤ (((reactions.buildSummary ops).usersOf e).toFinset
          ∪ ((reactions.buildSummary other_ops).usersOf e).toFinset).card := by
  have h1 := reactions.wf_buildSummary ops
  have h2 := reactions.wf_buildSummary other_ops
  exact ⟨reactions.count_merge_empty h1 e, reactions.mem_usersOf_merge_empty h1 u e,
    reactions.get_event_id_merge_empty u e, reactions.total_merge_empty h1,
    reactions.merge_self h1, le_of_eq (reactions.count_merge_union h1 h2 e)⟩

namespace newsfeed

theorem sort_items_engagement_sorted (items : List FeedItem) :
    (sort_items .Engagement items).Pairwise
      (fun a b => b.engagement ≤ a.engagement) := by
  have htrans : ∀ a b c : FeedItem,
      (decide (b.engagement ≤ a.engagement)) = true →
      (decide (c.engagement ≤ b.engagement)) = true →
      (decide (c.engagement ≤ a.engagement)) = true := by
    intro a b c hab hbc
    simp only [decide_eq_true_eq] at hab hbc ⊢
    omega
  have htotal : ∀ a b : FeedItem,
      ((decide (b.engagement ≤ a.engagement)) || (decide (a.engagement ≤ b.engagement)))
        = true := by
    intro a b
    simp only [Bool.or_eq_true, decide_eq_true_eq]
    omega
  have hs := List.sorted_mergeSort htrans htotal items
  exact hs.imp (fun h => of_decide_eq_true h)

theorem sort_items_engagement_perm (items : List FeedItem) :
    (sort_items .Engagement items).Perm items :=
  List.mergeSort_perm items _

end newsfeed

/-- C7: with sort order Engagement, the aggregated feed is the
concatenation of the fetched per-room item lists sorted by nonincreasing
engagement and truncated to at most limit items; and three items with
engagement scores 3, 10, and 1 come back ordered 10, 3, 1. -/
theorem C7_engagement_feed_sorted (fetched : List (List newsfeed.FeedItem)) (limit : Nat) :
    (newsfeed.get_aggregated_feed fetched .Engagement limit).Pairwise
      (fun a b => b.engagement ≤ a.engagement) ∧
    (newsfeed.sort_items .Engagement
        (fetched.foldl (fun acc items => acc ++ items) [])).Perm
      (fetched.foldl (fun acc items => acc ++ items) []) ∧
    newsfeed.get_aggregated_feed fetched .Engagement limit
      = (newsfeed.sort_items .Engagement
          (fetched.foldl (fun acc items => acc ++ items) [])).take limit ∧
    (newsfeed.get_aggregated_feed fetched .Engagement limit).length ≤ limit ∧
    newsfeed.get_aggregated_feed
        [[⟨"!r:x", "$p3", "@a:x", 0, .Text "t3" none [], [("like", 3)], 0⟩,
          ⟨"!r:x", "$p10", "@a:x", 0, .Text "t10" none [], [("like", 10)], 0⟩,
          ⟨"!r:x", "$p1", "@a:x", 0, .Text "t1" none [], [("like", 1)], 0⟩]]
        .Engagement 10
      = [⟨"!r:x", "$p10", "@a:x", 0, .Text "t10" none [], [("like", 10)], 0⟩,
         ⟨"!r:x", "$p3", "@a:x", 0, .Text "t3" none [], [("like", 3)], 0⟩,
         ⟨"!r:x", "$p1", "@a:x", 0, .Text "t1" none [], [("like", 1)], 0⟩] := by
  refine ⟨?_, newsfeed.sort_items_engagement_perm _, rfl, ?_, ?_⟩
  · unfold newsfeed.get_aggregated_feed
    exact (newsfeed.sort_items_engagement_sorted _).sublist (List.take_sublist _ _)
  · unfold newsfeed.get_aggregated_feed
    rw [List.length_take]
    exact min_le_left _ _
  · unfold newsfeed.get_aggregated_feed newsfeed.sort_items
    simp [List.mergeSort, List.merge, newsfeed.FeedItem.engagement]

/-- C8 counterexample: a wire RSVP record with guests equal to zero decodes
successfully (to a record with guests 0), so the claim that a guests-zero
record never decodes is false on the decoder. -/
theorem C8_guest_zero_decodes :
    social_events.rsvp.decodeSocialRsvpEventContent "going" (some 0) none
      = some ⟨.Going, 0, none⟩ := by decide

/-- C8 (amended): a successfully decoded RSVP record has one of the three
status strings going, interested, not_going; an absent guests field decodes
to the default 1; a present guests field decodes to its value whenever it
lies in the u32 range, including 0 — the decoder enforces no lower bound of
1. -/
theorem C8_rsvp_decode (status : String) (guests : Option Int) (note : Option String)
    (r : social_events.rsvp.SocialRsvpEventContent)
    (h : social_events.rsvp.decodeSocialRsvpEventContent status guests note = some r) :
    (status = "going" ∨ status = "interested" ∨ status = "not_going") ∧
    (guests = none → r.guests = 1) ∧
    r.guests < 4294967296 ∧
    (∀ g : Int, guests = some g → r.guests = g.toNat) := by
  unfold social_events.rsvp.decodeSocialRsvpEventContent at h
  have hstat : status = "going" ∨ status = "interested" ∨ status = "not_going" := by
    by_contra hc
    push_neg at hc
    obtain ⟨h1, h2, h3⟩ := hc
    unfold social_events.rsvp.decodeRsvpStatus at h
    rw [if_neg h1, if_neg h2, if_neg h3] at h
    simp at h
  have hdec : ∃ st, social_events.rsvp.decodeRsvpStatus status = some st := by
    unfold social_events.rsvp.decodeRsvpStatus
    by_cases h1 : status = "going"
    · exact ⟨.Going, by rw [if_pos h1]⟩
    · by_cases h2 : status = "interested"
      · exact ⟨.Interested, by rw [if_neg h1, if_pos h2]⟩
      · rcases hstat with hs | hs | hs
        · exact absurd hs h1
        · exact absurd hs h2
        · exact ⟨.NotGoing, by rw [if_neg h1, if_neg h2, if_pos hs]⟩
  obtain ⟨st, hst⟩ := hdec
  rw [hst] at h
  refine ⟨hstat, ?_, ?_, ?_⟩
  · intro hg
    subst hg
    simp only [Option.some.injEq] at h
    rw [← h]
  · cases guests with
    | none =>
        simp only [Option.some.injEq] at h
        rw [← h]
        show (1 : Nat) < 4294967296
        decide
    | some g =>
        by_cases hr : 0 ≤ g ∧ g < 4294967296
        · simp only [if_pos hr, Option.some.injEq] at h
          rw [← h]
          show g.toNat < 4294967296
          omega
        · simp only [if_neg hr] at h
          simp at h
  · intro g hg
    subst hg
    by_cases hr : 0 ≤ g ∧ g < 4294967296
    · simp only [if_pos hr, Option.some.injEq] at h
      rw [← h]
    · simp only [if_neg hr] at h
      simp at h

/-- Witness for C8 (amended) at a concrete fully-populated record. -/
theorem C8_rsvp_decode_witness :
    ("interested" = "going" ∨ "interested" = "interested" ∨ "interested" = "not_going") ∧
    ((some (5 : Int)) = none →
      (social_events.rsvp.SocialRsvpEventContent.mk .Interested 5 (some "hi")).guests = 1) ∧
    (social_events.rsvp.SocialRsvpEventContent.mk .Interested 5 (some "hi")).guests
      < 4294967296 ∧
    (∀ g : Int, (some (5 : Int)) = some g →
      (social_events.rsvp.SocialRsvpEventContent.mk .Interested 5 (some "hi")).guests
        = g.toNat) :=
  C8_rsvp_decode "interested" (some 5) (some "hi")
    ⟨.Interested, 5, some "hi"⟩ (by decide)

/-- C10: the feed-item filter never reads the maximum-age setting — two
settings differing only in max_age_seconds accept exactly the same items
and filter lists identically — yet has_active_filters reports an active
filter for a settings value whose only non-default field is a positive
max_age_seconds. -/
theorem C10_max_age_never_filters (s1 s2 : newsfeed.FeedFilterSettings)
    (hc : s1.content_filter = s2.content_filter)
    (ha : s1.authors = s2.authors)
    (hm : s1.muted_authors = s2.muted_authors)
    (he : s1.min_engagement = s2.min_engagement) :
    (∀ item, s1.matches item = s2.matches item) ∧
    (∀ items, s1.apply items = s2.apply items) ∧
    (∀ m : Nat, 0 < m →
      newsfeed.FeedFilterSettings.has_active_filters ⟨.All, [], [], 0, m⟩ = true) := by
  obtain ⟨c1, a1, m1, e1, g1⟩ := s1
  obtain ⟨c2, a2, m2, e2, g2⟩ := s2
  simp only at hc ha hm he
  subst hc; subst ha; subst hm; subst he
  refine ⟨?_, ?_, ?_⟩
  · intro item
    unfold newsfeed.FeedFilterSettings.matches
    rfl
  · intro items
    unfold newsfeed.FeedFilterSettings.apply newsfeed.FeedFilterSettings.matches
    rfl
  · intro m hm0
    unfold newsfeed.FeedFilterSettings.has_active_filters
    simp [hm0]

/-- Witness for C10: two settings that differ only in max_age_seconds (0
versus 99) agree on a concrete item and a concrete list, and the
max-age-only settings value reports active filters. -/
theorem C10_max_age_never_filters_witness :
    (newsfeed.FeedFilterSettings.matches ⟨.All, [], [], 0, 0⟩
        ⟨"!r:x", "$p", "@a:x", 0, .Text "t" none [], [], 0⟩
      = newsfeed.FeedFilterSettings.matches ⟨.All, [], [], 0, 99⟩
        ⟨"!r:x", "$p", "@a:x", 0, .Text "t" none [], [], 0⟩) ∧
    (newsfeed.FeedFilterSettings.apply ⟨.All, [], [], 0, 0⟩
        [⟨"!r:x", "$p", "@a:x", 0, .Text "t" none [], [], 0⟩]
      = newsfeed.FeedFilterSettings.apply ⟨.All, [], [], 0, 99⟩
        [⟨"!r:x", "$p", "@a:x", 0, .Text "t" none [], [], 0⟩]) ∧
    newsfeed.FeedFilterSettings.has_active_filters ⟨.All, [], [], 0, 7⟩ = true := by
  have h := C10_max_age_never_filters ⟨.All, [], [], 0, 0⟩ ⟨.All, [], [], 0, 99⟩
    rfl rfl rfl rfl
  exact ⟨h.1 _, h.2.1 _, h.2.2 7 (by decide)⟩
